import Mathlib

/- Shallow embedding of the Table / DBRecord data model of the web-vote
   repository (the Table class of src/unnamed/part_002 and the DBRecord
   class of src/target/vote/js/gd_db.js).

   Modelling conventions, used throughout:
   - JavaScript numbers are modelled as integers (Int); the data stored in
     these tables in the repository is integer or string data, and no claim
     depends on fractional values.
   - JavaScript arrays appearing as cell values are modelled as flat arrays
     of scalar values (Prim); nested arrays and plain objects as cell
     values are not modelled.
   - Absent array entries and JavaScript `undefined` are both modelled as
     Value.vundef, `null` as Value.vnull. -/

inductive Prim where
  | pnull
  | pundef
  | pnum (n : Int)
  | pstr (s : String)
  | pbool (b : Bool)
deriving DecidableEq, Repr

inductive Value where
  | vnull
  | vundef
  | vnum (n : Int)
  | vstr (s : String)
  | vbool (b : Bool)
  | varr (l : List Prim)
deriving DecidableEq, Repr

def Prim.toValue : Prim → Value
  | .pnull => .vnull
  | .pundef => .vundef
  | .pnum n => .vnum n
  | .pstr s => .vstr s
  | .pbool b => .vbool b

def Value.isNullish : Value → Bool
  | .vnull | .vundef => true
  | _ => false

def Value.isArr : Value → Bool
  | .varr _ => true
  | _ => false

def Value.isNum : Value → Bool
  | .vnum _ => true
  | _ => false

/- JavaScript ToString on primitive values; an array element renders through
   Array.prototype.join, where null and undefined render as the empty
   string. -/
def Prim.joinPiece : Prim → String
  | .pnull | .pundef => ""
  | .pnum n => toString n
  | .pstr s => s
  | .pbool b => if b then "true" else "false"

def jsJoin (l : List Prim) : String := String.intercalate "," (l.map Prim.joinPiece)

def jsToString : Value → String
  | .vnull => "null"
  | .vundef => "undefined"
  | .vnum n => toString n
  | .vstr s => s
  | .vbool b => if b then "true" else "false"
  | .varr l => jsJoin l

def isWsChar (c : Char) : Bool := c = ' ' ∨ c = '\t' ∨ c = '\n' ∨ c = '\r'

def trimChars (l : List Char) : List Char :=
  ((l.dropWhile isWsChar).reverse.dropWhile isWsChar).reverse

def digitsToNat (l : List Char) : Option Nat :=
  match l with
  | [] => none
  | _ => if l.all Char.isDigit then some (l.foldl (fun n c => n * 10 + (c.toNat - 48)) 0) else none

/- JavaScript ToNumber on a string, restricted to optionally signed decimal
   integer literals (the numeric strings occurring in this repository); the
   empty or all-whitespace string converts to 0, anything unparsable to
   NaN, modelled as none. -/
def parseNum (s : String) : Option Int :=
  match trimChars s.data with
  | [] => some 0
  | c :: rest =>
    if c = '-' then (digitsToNat rest).map (fun n => -(n : Int))
    else if c = '+' then (digitsToNat rest).map (fun n => (n : Int))
    else (digitsToNat (c :: rest)).map (fun n => (n : Int))

/- JavaScript ToNumber; none models NaN. -/
def toNumber : Value → Option Int
  | .vnull => some 0
  | .vundef => none
  | .vnum n => some n
  | .vstr s => parseNum s
  | .vbool b => some (if b then 1 else 0)
  | .varr l => parseNum (jsJoin l)

def numEqStr (n : Int) (s : String) : Bool :=
  match parseNum s with
  | some m => n == m
  | none => false

def boolNum (b : Bool) : Int := if b then 1 else 0

/- JavaScript loose equality (==) on the modelled value fragment.  Two
   distinct array objects compare by reference in JavaScript; object
   references are not modelled, so array-to-array comparison is modelled
   as false. -/
def jsEq : Value → Value → Bool
  | .vnull, .vnull => true
  | .vnull, .vundef => true
  | .vundef, .vnull => true
  | .vundef, .vundef => true
  | .vnum m, .vnum n => m == n
  | .vstr a, .vstr b => a == b
  | .vbool a, .vbool b => a == b
  | .vnum n, .vstr s => numEqStr n s
  | .vstr s, .vnum n => numEqStr n s
  | .vnum n, .vbool b => n == boolNum b
  | .vbool b, .vnum n => boolNum b == n
  | .vstr s, .vbool b => numEqStr (boolNum b) s
  | .vbool b, .vstr s => numEqStr (boolNum b) s
  | .vnum n, .varr l => numEqStr n (jsJoin l)
  | .varr l, .vnum n => numEqStr n (jsJoin l)
  | .vstr s, .varr l => s == jsJoin l
  | .varr l, .vstr s => jsJoin l == s
  | .vbool b, .varr l => numEqStr (boolNum b) (jsJoin l)
  | .varr l, .vbool b => numEqStr (boolNum b) (jsJoin l)
  | .varr _, .varr _ => false
  | _, _ => false

/- Reading a JavaScript array entry: an out-of-range index reads
   undefined. -/
def jsGetAt (l : List Value) (i : Nat) : Value := l.getD i .vundef

def jsGetAtInt (l : List Value) (i : Int) : Value :=
  if i < 0 then .vundef else jsGetAt l i.toNat

/- Writing a JavaScript array entry: writing past the end extends the
   array, the holes reading as undefined. -/
def jsSetAt : List Value → Nat → Value → List Value
  | [], 0, v => [v]
  | [], i + 1, v => .vundef :: jsSetAt [] i v
  | _ :: xs, 0, v => v :: xs
  | x :: xs, i + 1, v => x :: jsSetAt xs i v

/- The one-level array unwrap of Table._GetCellValue: if the cell holds an
   array its first element is the cell value ([][0] is undefined). -/
def Value.unwrapCell : Value → Value
  | .varr l => ((l.get? 0).map Prim.toValue).getD .vundef
  | v => v

/- ===================================================================
   The Table class (src/unnamed/part_002).
   =================================================================== -/

structure Column where
  sName : String
  sAlias : String
  sType : String
  iState : Int
  iSpecificType : Int
deriving DecidableEq, Repr

/- Table.column constructor (part_002 lines 43-54): an empty alias falls
   back to the name and an empty type to "unknown", through JavaScript
   short-circuit || on the option fields; || on the integer fields is the
   identity in the Int model. -/
def mkColumn (sName sAlias sType : String) (iState iSpecificType : Int) : Column :=
  { sName := sName
    sAlias := if sAlias = "" then sName else sAlias
    sType := if sType = "" then "unknown" else sType
    iState := iState
    iSpecificType := iSpecificType }

/- Column built from a plain name string (constructor default sType is
   "string" via Object.assign). -/
def mkColumnOfName (s : String) : Column := mkColumn s "" "string" 0 0

structure Table where
  aColumn : List Column
  aTable : List (List Value)
deriving DecidableEq, Repr

namespace Table

def Size (t : Table) : Nat := t.aTable.length

def GetColumnCount (t : Table) : Nat := t.aColumn.length

/- GetColumnType (lines 142-145): null (none) outside the column range. -/
def GetColumnType (t : Table) (i : Nat) : Option String :=
  match t.aColumn.get? i with
  | some c => some c.sType
  | none => none

def colNameAt (t : Table) (i : Nat) : String :=
  match t.aColumn.get? i with
  | some c => c.sName
  | none => ""

/- GetColumnIndex for a string argument (lines 109-121): a first pass over
   the names, a second over the aliases, -1 when not found.  A numeric
   argument passes through unresolved (line 135). -/
def GetColumnIndexOfName (t : Table) (s : String) : Int :=
  match t.aColumn.findIdx? (fun c => c.sName == s) with
  | some i => (i : Int)
  | none =>
    match t.aColumn.findIdx? (fun c => c.sAlias == s) with
    | some i => (i : Int)
    | none => -1

/- A column argument of GetCellValue / SetCellValue: a numeric index or a
   name to resolve. -/
inductive ColumnRef where
  | idx (i : Int)
  | name (s : String)
deriving DecidableEq, Repr

def resolveColumn (t : Table) : ColumnRef → Int
  | .idx i => i
  | .name s => t.GetColumnIndexOfName s

/- _GetCellValue (lines 627-632): raw cell access plus the one-level array
   unwrap; its callers guarantee in-range indices, out-of-range access is
   modelled by the undefined-defaulting lookups. -/
def GetCellRaw (t : Table) (iRow iColumn : Nat) : Value :=
  (jsGetAt (t.aTable.getD iRow []) iColumn).unwrapCell

/- GetCellValue (lines 611-619): resolves the column, returns null when the
   row index or the resolved column index is out of range. -/
def GetCellValue (t : Table) (iRow : Int) (col : ColumnRef) : Value :=
  let iColumn := t.resolveColumn col
  if iRow < 0 ∨ iRow ≥ (t.Size : Int) ∨ iColumn < 0 ∨ iColumn ≥ (t.GetColumnCount : Int) then
    .vnull
  else
    t.GetCellRaw iRow.toNat iColumn.toNat

/- SetCellValue (lines 642-649): false and no mutation when out of range,
   otherwise writes the cell and returns true. -/
def SetCellValue (t : Table) (iRow : Int) (col : ColumnRef) (v : Value) : Bool × Table :=
  let iColumn := t.resolveColumn col
  if iRow < 0 ∨ iRow ≥ (t.Size : Int) ∨ iColumn < 0 ∨ iColumn ≥ (t.GetColumnCount : Int) then
    (false, t)
  else
    (true, { t with
             aTable := t.aTable.set iRow.toNat
               (jsSetAt (t.aTable.getD iRow.toNat []) iColumn.toNat v) })

/- _GetRow (lines 675-680): one unwrapped cell per column definition. -/
def GetRowRaw (t : Table) (iRow : Nat) : List Value :=
  (List.range t.GetColumnCount).map (fun c => t.GetCellRaw iRow c)

/- GetHeaderRow (lines 150-152). -/
def GetHeaderRow (t : Table) : List Value :=
  t.aColumn.map (fun c => .vstr (if c.sAlias = "" then c.sName else c.sAlias))

end Table

/- ===================================================================
   Sorting machinery for Table.GetData.

   Array.prototype.sort is modelled as a stable comparison sort: for a
   consistent comparator the ECMAScript specification mandates a stable
   result ordered by the comparator, which the stable insertion sort
   below produces; a comparator result of NaN is treated as 0 by the
   specification and is produced as 0 by the comparators here.
   =================================================================== -/

def insertCmp (cmp : α → α → Int) (a : α) : List α → List α
  | [] => [a]
  | x :: xs => if cmp a x < 0 then a :: x :: xs else x :: insertCmp cmp a xs

def sortGo (cmp : α → α → Int) : List α → List α → List α
  | [], acc => acc
  | x :: xs, acc => sortGo cmp xs (insertCmp cmp x acc)

def sortCmp (cmp : α → α → Int) (l : List α) : List α := sortGo cmp l []

/- Lexicographic comparison of char lists, the model of the default-locale
   String.prototype.localeCompare of the sort comparators. -/
def charListLt : List Char → List Char → Bool
  | [], [] => false
  | [], _ :: _ => true
  | _ :: _, [] => false
  | a :: as, b :: bs => if a < b then true else if b < a then false else charListLt as bs

def strCmp (a b : String) : Int :=
  if charListLt a.data b.data then -1
  else if charListLt b.data a.data then 1
  else 0

namespace Table

/- The ascending comparator of GetData (part_002 lines 231-244).  The
   source's first null test there compares bIsString (a boolean) loosely
   with null, which is always false; that dead branch is omitted.  The
   comparator kind (string vs numeric) is chosen by bIsString, which
   GetData computes from the column at iFirstColumn, not from the sorted
   column; the numeric branch is JavaScript subtraction, whose NaN results
   are modelled as 0. -/
def ascCmp (bIsString : Bool) (p : Nat) (a b : List Value) : Int :=
  if bIsString then
    let a_ := jsGetAt a p
    let b_ := jsGetAt b p
    if a_.isNullish then -1
    else if b_.isNullish then 1
    else strCmp (jsToString a_) (jsToString b_)
  else
    match toNumber (jsGetAt a p), toNumber (jsGetAt b p) with
    | some x, some y => x - y
    | _, _ => 0

/- The descending comparator of GetData (lines 249-262). -/
def descCmp (bIsString : Bool) (p : Nat) (a b : List Value) : Int :=
  if bIsString then
    let a_ := jsGetAt a p
    let b_ := jsGetAt b p
    if a_.isNullish && b_.isNullish then 0
    else if a_.isNullish then 1
    else if b_.isNullish then -1
    else strCmp (jsToString b_) (jsToString a_)
  else
    match toNumber (jsGetAt a p), toNumber (jsGetAt b p) with
    | some x, some y => y - x
    | _, _ => 0

/- GetData options (lines 199): defaults bHeader true, iSort 0, bIndex
   false; the aRows / aColumn selection options are not modelled (no claim
   concerns them). -/
structure GetDataOpts where
  bHeader : Bool
  iSort : Int
  bIndex : Bool
deriving Repr

/- The row-building loop of GetData (lines 203-212). -/
def buildRows (t : Table) (bIndex : Bool) : List (List Value) :=
  if bIndex then (List.range t.Size).map (fun (i : Nat) => Value.vnum (Int.ofNat i) :: t.GetRowRaw i)
  else (List.range t.Size).map (fun i => t.GetRowRaw i)

/- GetData (lines 190-274) without the aRows / aColumn selection options:
   build the rows (index-prefixed under bIndex), sort when iSort is
   nonzero, prepend the header row last. -/
def GetData (t : Table) (o : GetDataOpts) : List (List Value) :=
  let aData := t.buildRows o.bIndex
  let iFirstColumn : Nat := if o.bIndex then 1 else 0
  let bIsString : Bool := t.GetColumnType iFirstColumn == some "string"
  let aData :=
    if o.iSort > 0 then sortCmp (ascCmp bIsString (o.iSort.natAbs - iFirstColumn)) aData
    else if o.iSort < 0 then sortCmp (descCmp bIsString (o.iSort.natAbs - iFirstColumn)) aData
    else aData
  if o.bHeader then
    (if o.bIndex then .vstr "#" :: t.GetHeaderRow else t.GetHeaderRow) :: aData
  else aData

/- FindAll, value-based search (lines 341-376); the callback forms (lines
   315-339) are not modelled, no claim concerns them.  A scalar find value
   becomes a one-element value list and an array value its element list; an
   absent iColumn searches every column of the column definitions, a given
   iColumn only the listed columns (a scalar iColumn is its one-element
   list). -/
def FindAll (t : Table) (v : Value) (cols? : Option (List Int)) : List Nat :=
  let aValues : List Value :=
    match v with
    | .varr l => l.map Prim.toValue
    | w => [w]
  let aColumns : List Int :=
    match cols? with
    | some l => l
    | none => (List.range t.GetColumnCount).map Int.ofNat
  (List.range t.Size).foldl
    (fun aFind iRow =>
      let aRow := t.GetRowRaw iRow
      if aColumns.any (fun c => aValues.any (fun w => jsEq (jsGetAtInt aRow c) w)) then
        aFind ++ [iRow]
      else aFind)
    []

/- Clone options (lines 408-410): defaults iBegin 0, iCount Size, aRows
   null; the callback_ filter option is not modelled (no claim concerns
   it). -/
structure CloneArg where
  iBegin : Option Int
  iCount : Option Int
  aRows : Option (List Int)
deriving Repr

def intRange (a b : Int) : List Int := (List.range (b - a).toNat).map (fun i => a + Int.ofNat i)

/- Clone (lines 408-451): deep-copied column definitions through the
   Table.column constructor, then the selected rows in order, invalid
   indices skipped; the spread copy of each row is the identity on the
   row's value content. -/
def Clone (t : Table) (rows? : Option CloneArg) : Table :=
  let o := rows?.getD { iBegin := none, iCount := none, aRows := none }
  let iBegin := o.iBegin.getD 0
  let iCount := o.iCount.getD (t.Size : Int)
  let aClonedColumns := t.aColumn.map (fun c => mkColumn c.sName c.sAlias c.sType c.iState c.iSpecificType)
  let aRowIndices : List Int :=
    match o.aRows with
    | some l => l
    | none => intRange iBegin (min (iBegin + iCount) (t.Size : Int))
  let aRows := aRowIndices.foldl
    (fun acc i =>
      if i < 0 ∨ i ≥ (t.Size : Int) then acc
      else acc ++ [t.aTable.getD i.toNat []])
    []
  { aColumn := aClonedColumns, aTable := aRows }

/- The recognised argument shapes of Add (lines 699-721): a separated
   string, a JavaScript array (a single row unless every element is itself
   an array, in which case it is a list of rows; the empty array counts as
   an empty list of rows), or a plain object matched against the column
   names. -/
inductive AddArg where
  | ofString (s : String)
  | ofArray (l : List Value)
  | ofObject (kvs : List (String × Value))

/- The row-normalisation half of Add. -/
def addRows (t : Table) (arg : AddArg) (sep? : Option String) : List (List Value) :=
  match arg with
  | .ofString s =>
    let sep :=
      match sep? with
      | none => ","
      | some "" => ","
      | some x => x
    [(s.splitOn sep).map Value.vstr]
  | .ofArray l =>
    if l.all Value.isArr then
      l.map (fun v =>
        match v with
        | .varr r => r.map Prim.toValue
        | _ => [])
    else [l]
  | .ofObject kvs =>
    let base : List Value := List.replicate t.GetColumnCount .vundef
    [kvs.foldl
      (fun row kv =>
        let i := t.GetColumnIndexOfName kv.1
        if i = -1 then row else jsSetAt row i.toNat kv.2)
      base]

/- Add (lines 699-721): the push loop over the normalised rows. -/
def Add (t : Table) (arg : AddArg) (sep? : Option String) : Table :=
  (t.addRows arg sep?).foldl (fun acc r => { acc with aTable := acc.aTable ++ [r] }) t

end Table

/- ===================================================================
   XML escaping and AsXml.
   =================================================================== -/

/- The apostrophe character, written by code to keep string literals free
   of quote characters. -/
def aposC : Char := Char.ofNat 39

/- One global single-character replace pass; a single-character pattern
   makes String.prototype.replace with a global regex a per-character
   substitution. -/
def xmlPass (c : Char) (rep : String) (l : List Char) : List Char :=
  l.flatMap (fun ch => if ch = c then rep.data else [ch])

/- _EscapeXmlValue (part_002 lines 477-487): empty string for null and
   undefined, otherwise String coercion followed by the five sequential
   global replaces, ampersand first. -/
def Table.EscapeXmlValue (v : Value) : String :=
  match v with
  | .vnull => ""
  | .vundef => ""
  | w =>
    String.mk (xmlPass aposC "&apos;"
      (xmlPass '"' "&quot;"
        (xmlPass '>' "&gt;"
          (xmlPass '<' "&lt;"
            (xmlPass '&' "&amp;" (jsToString w).data)))))

/- AsXml options (lines 516-520): defaults sRow "row", sColumn "column",
   bAttribute false, via || so the empty string also falls back. -/
structure XmlOpts where
  sRow : String
  sColumn : String
  bAttribute : Bool
deriving Repr

/- The template literal appended per column in element mode
   (`<${sColumn} name="...">...</${sColumn}>`). -/
def Table.xmlElemPiece (t : Table) (iRow : Nat) (sColumn : String) (i : Nat) : String :=
  "<" ++ sColumn ++ " name=\"" ++ Table.EscapeXmlValue (.vstr (t.colNameAt i)) ++ "\">" ++
    Table.EscapeXmlValue (t.GetCellRaw iRow i) ++ "</" ++ sColumn ++ ">"

/- The template literal appended per column in attribute mode
   (` ${name}="${value}"`). -/
def Table.xmlAttrPiece (t : Table) (iRow : Nat) (i : Nat) : String :=
  " " ++ Table.EscapeXmlValue (.vstr (t.colNameAt i)) ++ "=\"" ++
    Table.EscapeXmlValue (t.GetCellRaw iRow i) ++ "\""

/- AsXml (lines 516-548): element mode wraps each non-nullish cell in a
   column element carrying the escaped column name; attribute mode renders
   each non-nullish cell as an escaped-name="escaped-value" pair. -/
def Table.AsXml (t : Table) (iRow : Nat) (o : XmlOpts) : String :=
  let sRow := if o.sRow = "" then "row" else o.sRow
  let sColumn := if o.sColumn = "" then "column" else o.sColumn
  if o.bAttribute = false then
    "<" ++ sRow ++ ">" ++
      ((List.range t.GetColumnCount).foldl
        (fun s iColumn =>
          if (t.GetCellRaw iRow iColumn).isNullish then s
          else s ++ t.xmlElemPiece iRow sColumn iColumn)
        "") ++
    "</" ++ sRow ++ ">"
  else
    "<" ++ sRow ++
      ((List.range t.GetColumnCount).foldl
        (fun s iColumn =>
          if (t.GetCellRaw iRow iColumn).isNullish then s
          else s ++ t.xmlAttrPiece iRow iColumn)
        "") ++
    " />"

/- ===================================================================
   Specification-side definitions, written from the words of the claims
   (used on the right-hand side of refinement statements, never as the
   embedding of the source).
   =================================================================== -/

/- Character-wise XML escaping as the claim words it: each of the five
   special characters replaced by its entity reference. -/
def specEscapeChar (ch : Char) : String :=
  if ch = '&' then "&amp;"
  else if ch = '<' then "&lt;"
  else if ch = '>' then "&gt;"
  else if ch = '"' then "&quot;"
  else if ch = aposC then "&apos;"
  else String.singleton ch

def specEscape (s : String) : String :=
  String.mk (s.data.flatMap (fun ch => (specEscapeChar ch).data))

/- Concatenation of string pieces, used by the specification-side XML
   rendering. -/
def strConcat : List String → String
  | [] => ""
  | s :: rest => s ++ strConcat rest

/- One escaped element per column as the C6 claim words it. -/
def specXmlElemPiece (t : Table) (iRow : Nat) (sColumn : String) (i : Nat) : String :=
  "<" ++ sColumn ++ " name=\"" ++ specEscape (t.colNameAt i) ++ "\">" ++
    specEscape (jsToString (t.GetCellRaw iRow i)) ++ "</" ++ sColumn ++ ">"

/- One escaped attribute per column as the C6 claim words it. -/
def specXmlAttrPiece (t : Table) (iRow : Nat) (i : Nat) : String :=
  " " ++ specEscape (t.colNameAt i) ++ "=\"" ++
    specEscape (jsToString (t.GetCellRaw iRow i)) ++ "\""

/- The per-row XML rendering the C6 claim describes: one element (or one
   attribute) per column, columns with nullish cells skipped, every cell
   value and column name escaped character-wise. -/
def specAsXml (t : Table) (iRow : Nat) (o : XmlOpts) : String :=
  let sRow := if o.sRow = "" then "row" else o.sRow
  let sColumn := if o.sColumn = "" then "column" else o.sColumn
  if o.bAttribute then
    "<" ++ sRow ++
      strConcat ((List.range t.GetColumnCount).filterMap (fun i =>
        if (t.GetCellRaw iRow i).isNullish then none
        else some (specXmlAttrPiece t iRow i))) ++ " />"
  else
    "<" ++ sRow ++ ">" ++
      strConcat ((List.range t.GetColumnCount).filterMap (fun i =>
        if (t.GetCellRaw iRow i).isNullish then none
        else some (specXmlElemPiece t iRow sColumn i))) ++ "</" ++ sRow ++ ">"

/- The ascending order on cell values the C1 claim refers to: numeric on
   numbers, lexicographic on strings, unrelated otherwise. -/
def specLeB : Value → Value → Bool
  | .vnum m, .vnum n => decide (m ≤ n)
  | .vstr s, .vstr u => !(charListLt u.data s.data)
  | _, _ => false

/- Numeric ascending / descending comparison of two rows at a position. -/
def numLeAt (p : Nat) (a b : List Value) : Bool :=
  match jsGetAt a p, jsGetAt b p with
  | .vnum m, .vnum n => decide (m ≤ n)
  | _, _ => false

def numGeAt (p : Nat) (a b : List Value) : Bool :=
  match jsGetAt a p, jsGetAt b p with
  | .vnum m, .vnum n => decide (n ≤ m)
  | _, _ => false

/- A cell loosely matching a find value as the C4 claim words it: loosely
   equal to the value, or to some element when the value is an array. -/
def LooseMatch (cell v : Value) : Prop :=
  match v with
  | .varr l => ∃ p ∈ l, jsEq cell p.toValue = true
  | w => jsEq cell w = true

/- ===================================================================
   Heap view of the table rows, used to observe the aliasing consequence
   of the spread copy in Clone (claim C5): the arena holds the row-array
   objects, a table holds references into the arena.  The pure Table model
   cannot distinguish a copied row from a shared one; this view can.
   =================================================================== -/

structure HTable where
  cols : List Column
  refs : List Nat
deriving Repr

def hRow (h : List (List Value)) (ref : Nat) : List Value := h.getD ref []

/- GetCellValue in the heap view (same bounds discipline as
   Table.GetCellValue, numeric column index). -/
def hGetCellValue (h : List (List Value)) (t : HTable) (iRow iColumn : Int) : Value :=
  if iRow < 0 ∨ iRow ≥ (t.refs.length : Int) ∨ iColumn < 0 ∨ iColumn ≥ (t.cols.length : Int) then
    .vnull
  else
    (jsGetAt (hRow h (t.refs.getD iRow.toNat 0)) iColumn.toNat).unwrapCell

/- SetCellValue in the heap view: mutates the referenced row array in the
   arena. -/
def hSetCellValue (h : List (List Value)) (t : HTable) (iRow iColumn : Int) (v : Value) :
    List (List Value) × Bool :=
  if iRow < 0 ∨ iRow ≥ (t.refs.length : Int) ∨ iColumn < 0 ∨ iColumn ≥ (t.cols.length : Int) then
    (h, false)
  else
    let ref := t.refs.getD iRow.toNat 0
    (h.set ref (jsSetAt (hRow h ref) iColumn.toNat v), true)

/- Clone (all rows) in the heap view: the spread copy [...aRow] allocates
   one fresh row array per cloned row; the fresh arrays go to the end of
   the arena and the clone references only those. -/
def hClone (h : List (List Value)) (t : HTable) : List (List Value) × HTable :=
  (h ++ t.refs.map (fun ref => hRow h ref),
   { cols := t.cols.map (fun c => mkColumn c.sName c.sAlias c.sType c.iState c.iSpecificType)
     refs := (List.range t.refs.length).map (fun i => h.length + i) })

/- ===================================================================
   The DBRecord class (src/target/vote/js/gd_db.js).
   =================================================================== -/

structure DBColumn where
  sName : String
  sAlias : String
  sType : String
  iState : Int
  iSpecificType : Int
  bKey : Bool
  bFKey : Bool
  bRequired : Bool
  sLabel : String
  sDescription : String
  sError : String
  defaultV : Value
deriving DecidableEq, Repr

/- Options accepted by the DBRecord.column constructor; sType is an Option
   because a missing sType defaults to "string" through Object.assign
   while an explicitly empty one falls to "unknown" through ||.  The
   pattern and aMatch options are not modelled (no claim concerns them). -/
structure DBColOpts where
  sName : String := ""
  sAlias : String := ""
  sType : Option String := none
  iState : Int := 0
  iSpecificType : Int := 0
  bKey : Bool := false
  bFKey : Bool := false
  bRequired : Bool := false
  sLabel : String := ""
  sDescription : String := ""
  sError : String := ""
  defaultV : Value := .vundef
deriving Repr

/- JavaScript falsiness of a value. -/
def Value.jsFalsy : Value → Bool
  | .vnull | .vundef => true
  | .vnum n => n == 0
  | .vstr s => s == ""
  | .vbool b => !b
  | .varr _ => false

/- DBRecord.column constructor (gd_db.js lines 63-83): || defaulting on
   every option; in particular `this.default_ = oOptions.default || null`
   collapses every falsy declared default (0, "", false, undefined) to
   null. -/
def mkDBColumn (o : DBColOpts) : DBColumn :=
  { sName := o.sName
    sAlias := if o.sAlias = "" then o.sName else o.sAlias
    sType :=
      match o.sType with
      | none => "string"
      | some "" => "unknown"
      | some s => s
    iState := o.iState
    iSpecificType := o.iSpecificType
    bKey := o.bKey
    bFKey := o.bFKey
    bRequired := o.bRequired
    sLabel := o.sLabel
    sDescription := o.sDescription
    sError := o.sError
    defaultV := if o.defaultV.jsFalsy then .vnull else o.defaultV }

structure DBRecord where
  sTable : String
  aColumn : List DBColumn
  mapValues : List (String × Value)
deriving DecidableEq, Repr

/- Map.prototype.set: update the existing key in place, else append. -/
def mapSet : List (String × Value) → String → Value → List (String × Value)
  | [], k, v => [(k, v)]
  | (ka, va) :: rest, k, v =>
    if ka = k then (k, v) :: rest else (ka, va) :: mapSet rest k v

/- Map.prototype.get: some value for a present key, none (undefined)
   otherwise. -/
def mapGet : List (String × Value) → String → Option Value
  | [], _ => none
  | (ka, va) :: rest, k => if ka = k then some va else mapGet rest k

namespace DBRecord

/- _get_column for a string argument (gd_db.js lines 472-476). -/
def findColumn (r : DBRecord) (s : String) : Option DBColumn :=
  r.aColumn.find? (fun c => c.sName == s)

def HasColumn (r : DBRecord) (s : String) : Bool := (r.findColumn s).isSome

def dupMsg : String := "Duplicate column names detected"

/- The DBRecord constructor (gd_db.js lines 109-140) after the
   column-option normalisation: builds the columns, then rejects duplicate
   column names by comparing the name list against its Set image (the
   first-occurrence dedup); aValues initialisation and the fnRead/fnWrite
   callbacks are not modelled (no claim concerns them). -/
def make (cols : List DBColOpts) (sTable : String) : Except String DBRecord :=
  let aColumn := cols.map mkDBColumn
  let aNames := aColumn.map (fun c => c.sName)
  if aNames.dedup.length ≠ aNames.length then Except.error dupMsg
  else Except.ok { sTable := sTable, aColumn := aColumn, mapValues := [] }

/- _set_value_internal (lines 535-539): always stores (the missing-column
   console warning is effect-free). -/
def setValueInternal (r : DBRecord) (s : String) (v : Value) : DBRecord :=
  { r with mapValues := mapSet r.mapValues s v }

/- The shared forEach body of the multi-value SetValue forms: store only
   when the column exists, silently skip otherwise. -/
def setPairsKnown (r : DBRecord) (pairs : List (String × Value)) : DBRecord :=
  pairs.foldl
    (fun acc kv => if acc.HasColumn kv.1 then acc.setValueInternal kv.1 kv.2 else acc) r

/- Positional pairing of a name list with a value list (aValues[iIndex] is
   undefined past the end). -/
def pairsOf (names : List String) (values : List Value) : List (String × Value) :=
  names.enum.map (fun p => (p.2, values.getD p.1 Value.vundef))

/- The recognised call shapes of SetValue (the object form is the
   name_.constructor === Object && value_ === undefined case). -/
inductive SetArg where
  | byName (s : String) (v : Value)
  | byObject (kvs : List (String × Value))
  | byArrays (names : List String) (values : List Value)
  | byNested (names : List String) (values : List Value)

def errColumnNotFound (s : String) : String :=
  "Column " ++ String.singleton aposC ++ s ++ String.singleton aposC ++ " not found"

/- SetValue (gd_db.js lines 216-247), the later of the two definitions in
   the class body (the earlier one at lines 182-190 is overwritten by it).
   The thrown error is modelled in the first component, the resulting
   record state in the second; the final throw for unrecognised argument
   shapes is unreachable over SetArg. -/
def SetValue (r : DBRecord) : SetArg → Option String × DBRecord
  | .byNested names values => (none, r.setPairsKnown (pairsOf names values))
  | .byArrays names values => (none, r.setPairsKnown (pairsOf names values))
  | .byObject kvs => (none, r.setPairsKnown kvs)
  | .byName s v =>
    if r.HasColumn s then (none, r.setValueInternal s v)
    else (some (errColumnNotFound s), r)

/- The stored value of a column name: Map.get, undefined when absent. -/
def storedValue (r : DBRecord) (s : String) : Value :=
  (mapGet r.mapValues s).getD Value.vundef

/- GetValue (gd_db.js lines 254-264). -/
def GetValue (r : DBRecord) (s : String) : Value :=
  let oColumn := r.findColumn s
  let v := r.storedValue s
  match oColumn with
  | some c => if v.isNullish && !c.defaultV.isNullish then c.defaultV else v
  | none => v

/- AddColumn (gd_db.js lines 405-439) without the optional property-map
   argument (no claim concerns the mapping); a single column definition is
   the one-element list, and the key-column cache invalidation is not
   modelled (the cache is derived data). -/
def AddColumn (r : DBRecord) (cols : List DBColOpts) : DBRecord :=
  { r with aColumn := r.aColumn ++ cols.map mkDBColumn }

def GetColumnNames (r : DBRecord) : List String := r.aColumn.map (fun c => c.sName)

end DBRecord

/- The specification-side multi-value update of C9: the known-column pairs
   applied in order to the value map. -/
def setKnownValues (r : DBRecord) (pairs : List (String × Value)) : List (String × Value) :=
  (pairs.filter (fun kv => r.HasColumn kv.1)).foldl (fun m kv => mapSet m kv.1 kv.2) r.mapValues

/- ===================================================================
   Concrete instances used by counterexamples and witnesses.
   =================================================================== -/

/- C1 counterexample table: first column typed "number" (so bIsString is
   false), second column holds non-numeric strings. -/
def T1cex : Table :=
  { aColumn := [mkColumn "n" "" "number" 0 0, mkColumn "s" "" "string" 0 0]
    aTable := [[.vnum 5, .vstr "b"], [.vnum 3, .vstr "a"]] }

/- C1 witness table: numeric data in the sorted column. -/
def T1w : Table :=
  { aColumn := [mkColumn "a" "" "number" 0 0, mkColumn "b" "" "number" 0 0]
    aTable := [[.vnum 1, .vnum 9], [.vnum 2, .vnum 7]] }

/- C2 table: one column, one row. -/
def T2 : Table :=
  { aColumn := [mkColumnOfName "a"], aTable := [[.vnull]] }

/- C3 table. -/
def T3 : Table :=
  { aColumn := [mkColumnOfName "a", mkColumnOfName "b"]
    aTable := [[.vnum 1, .vnum 2], [.vnum 3, .vnum 4]] }

/- C5 table and its heap view. -/
def T5 : Table :=
  { aColumn := [mkColumnOfName "x", mkColumnOfName "y"]
    aTable := [[.vnum 1, .vnum 2], [.vnum 3, .vnum 4], [.vnum 5, .vnum 6]] }

def H5arena : List (List Value) := [[.vnum 1, .vnum 2], [.vnum 3, .vnum 4]]

def H5 : HTable :=
  { cols := [mkColumnOfName "x", mkColumnOfName "y"], refs := [0, 1] }

/- C6 table: values and a column name with XML special characters. -/
def T6 : Table :=
  { aColumn := [mkColumnOfName "a&b", mkColumnOfName "c"]
    aTable := [[.vstr "x<y", .vnull]] }

/- C8 record options: a single column named "a". -/
def optsA : DBColOpts := { sName := "a" }

def R8 : DBRecord :=
  { sTable := "", aColumn := [mkDBColumn optsA], mapValues := [] }

/- C9 record: columns "a" and "b", no values. -/
def R9 : DBRecord :=
  { sTable := ""
    aColumn := [mkDBColumn { sName := "a" }, mkDBColumn { sName := "b" }]
    mapValues := [] }

/- C10 record: column "a" with declared default 7, column "b" without a
   usable default; "a" stores null, "b" stores 2. -/
def R10 : DBRecord :=
  { sTable := ""
    aColumn := [mkDBColumn { sName := "a", defaultV := .vnum 7 },
                mkDBColumn { sName := "b" }]
    mapValues := [("a", .vnull), ("b", .vnum 2)] }

/- A column is constructor-normal when rebuilding it through the
   Table.column constructor is the identity; every column the Table class
   itself creates (constructor, PrepareColumns, Clone) is of this form. -/
def colNormal (c : Column) : Prop :=
  mkColumn c.sName c.sAlias c.sType c.iState c.iSpecificType = c

instance (c : Column) : Decidable (colNormal c) := by
  unfold colNormal
  infer_instance

/- ===================================================================
   General helper lemmas.
   =================================================================== -/

theorem jsGetAt_jsSetAt (i : Nat) : ∀ (l : List Value) (v : Value),
    jsGetAt (jsSetAt l i v) i = v := by
  induction i with
  | zero =>
    intro l v
    cases l <;> simp [jsSetAt, jsGetAt, List.getD]
  | succ n ih =>
    intro l v
    cases l with
    | nil =>
      simpa [jsSetAt, jsGetAt, List.getD] using ih [] v
    | cons x xs =>
      simpa [jsSetAt, jsGetAt, List.getD] using ih xs v

theorem map_getD_range (d : List Value) :
    ∀ (l : List (List Value)), (List.range l.length).map (fun i => l.getD i d) = l := by
  intro l
  induction l with
  | nil => simp
  | cons x xs ih =>
    rw [List.length_cons, List.range_succ_eq_map]
    simp only [List.map_cons, List.map_map]
    have h2 : ((fun i => (x :: xs).getD i d) ∘ Nat.succ) = fun i => xs.getD i d := rfl
    rw [h2, ih]
    rfl

theorem foldl_push_filter (P : α → Bool) (f : α → β) :
    ∀ (l : List α) (acc : List β),
      l.foldl (fun acc x => if P x then acc ++ [f x] else acc) acc =
        acc ++ (l.filter P).map f := by
  intro l
  induction l with
  | nil => intro acc; simp
  | cons x xs ih =>
    intro acc
    by_cases h : P x = true
    · simp [List.foldl_cons, h, ih]
    · simp [List.foldl_cons, h, ih]

theorem foldl_skip_filter (P : α → Bool) (f : α → β) :
    ∀ (l : List α) (acc : List β),
      l.foldl (fun acc x => if P x then acc else acc ++ [f x]) acc =
        acc ++ (l.filter (fun x => !P x)).map f := by
  intro l
  induction l with
  | nil => intro acc; simp
  | cons x xs ih =>
    intro acc
    by_cases h : P x = true
    · simp [List.foldl_cons, h, ih]
    · simp only [List.foldl_cons, h, if_neg]
      simp [h, ih]

theorem dedup_length_iff {α : Type} [DecidableEq α] (l : List α) :
    l.dedup.length = l.length ↔ l.Nodup := by
  constructor
  · intro h
    have hs : l.dedup = l := (List.dedup_sublist l).eq_of_length h
    rw [← hs]
    exact List.nodup_dedup l
  · intro h
    rw [List.dedup_eq_self.mpr h]

theorem mem_insertCmp (cmp : α → α → Int) (a : α) :
    ∀ (l : List α) (b : α), b ∈ insertCmp cmp a l ↔ b = a ∨ b ∈ l := by
  intro l
  induction l with
  | nil => intro b; simp [insertCmp]
  | cons x xs ih =>
    intro b
    by_cases h : cmp a x < 0
    · simp only [insertCmp, if_pos h, List.mem_cons]
      try tauto
    · simp only [insertCmp, if_neg h, List.mem_cons, ih]
      tauto

theorem perm_insertCmp (cmp : α → α → Int) (a : α) :
    ∀ (l : List α), List.Perm (insertCmp cmp a l) (a :: l) := by
  intro l
  induction l with
  | nil => simp [insertCmp]
  | cons x xs ih =>
    by_cases h : cmp a x < 0
    · simp [insertCmp, h]
    · simp only [insertCmp, if_neg h]
      exact List.Perm.trans (List.Perm.cons x ih) (List.Perm.swap a x xs)

theorem perm_sortGo (cmp : α → α → Int) :
    ∀ (l acc : List α), List.Perm (sortGo cmp l acc) (l ++ acc) := by
  intro l
  induction l with
  | nil => intro acc; simp [sortGo]
  | cons x xs ih =>
    intro acc
    have h1 : List.Perm (sortGo cmp (x :: xs) acc) (xs ++ insertCmp cmp x acc) := ih _
    have h2 : List.Perm (xs ++ insertCmp cmp x acc) (xs ++ (x :: acc)) :=
      List.Perm.append_left xs (perm_insertCmp cmp x acc)
    have h3 : List.Perm (xs ++ (x :: acc)) (x :: (xs ++ acc)) := List.perm_middle
    exact (h1.trans h2).trans h3

theorem perm_sortCmp (cmp : α → α → Int) (l : List α) :
    List.Perm (sortCmp cmp l) l := by
  have h := perm_sortGo cmp l []
  simpa [sortCmp] using h

theorem pairwise_insertCmp (cmp : α → α → Int) (P : α → Prop)
    (hsym : ∀ x y, P x → P y → ¬ cmp x y < 0 → cmp y x ≤ 0)
    (htrans : ∀ x y z, P x → P y → P z → cmp x y ≤ 0 → cmp y z ≤ 0 → cmp x z ≤ 0)
    (a : α) (ha : P a) :
    ∀ l, (∀ x ∈ l, P x) → List.Pairwise (fun u v => cmp u v ≤ 0) l →
      List.Pairwise (fun u v => cmp u v ≤ 0) (insertCmp cmp a l) := by
  intro l
  induction l with
  | nil => intro _ _; simp [insertCmp]
  | cons x xs ih =>
    intro hP hpw
    have hPx : P x := hP x (by simp)
    have hPxs : ∀ y ∈ xs, P y := fun y hy => hP y (by simp [hy])
    rcases List.pairwise_cons.mp hpw with ⟨hx, hxs⟩
    by_cases h : cmp a x < 0
    · rw [insertCmp.eq_def]
      simp only [if_pos h]
      refine List.pairwise_cons.mpr ⟨?_, hpw⟩
      intro b hb
      rcases List.mem_cons.mp hb with rfl | hbxs
      · exact le_of_lt h
      · exact htrans a x b ha hPx (hPxs b hbxs) (le_of_lt h) (hx b hbxs)
    · rw [insertCmp.eq_def]
      simp only [if_neg h]
      refine List.pairwise_cons.mpr ⟨?_, ih hPxs hxs⟩
      intro b hb
      rcases (mem_insertCmp cmp a xs b).mp hb with hba | hbxs
      · rw [hba]; exact hsym a x ha hPx h
      · exact hx b hbxs

theorem pairwise_sortGo (cmp : α → α → Int) (P : α → Prop)
    (hsym : ∀ x y, P x → P y → ¬ cmp x y < 0 → cmp y x ≤ 0)
    (htrans : ∀ x y z, P x → P y → P z → cmp x y ≤ 0 → cmp y z ≤ 0 → cmp x z ≤ 0) :
    ∀ (l acc : List α), (∀ x ∈ l, P x) → (∀ x ∈ acc, P x) →
      List.Pairwise (fun u v => cmp u v ≤ 0) acc →
      List.Pairwise (fun u v => cmp u v ≤ 0) (sortGo cmp l acc) := by
  intro l
  induction l with
  | nil => intro acc _ _ hacc; simpa [sortGo] using hacc
  | cons x xs ih =>
    intro acc hl hacc hpw
    have hPx : P x := hl x (by simp)
    have hPxs : ∀ y ∈ xs, P y := fun y hy => hl y (by simp [hy])
    have hmem : ∀ y ∈ insertCmp cmp x acc, P y := by
      intro y hy
      rcases (mem_insertCmp cmp x acc y).mp hy with rfl | hyacc
      · exact hPx
      · exact hacc y hyacc
    exact ih (insertCmp cmp x acc) hPxs hmem
      (pairwise_insertCmp cmp P hsym htrans x hPx acc hacc hpw)

theorem pairwise_sortCmp (cmp : α → α → Int) (P : α → Prop)
    (hsym : ∀ x y, P x → P y → ¬ cmp x y < 0 → cmp y x ≤ 0)
    (htrans : ∀ x y z, P x → P y → P z → cmp x y ≤ 0 → cmp y z ≤ 0 → cmp x z ≤ 0)
    (l : List α) (hl : ∀ x ∈ l, P x) :
    List.Pairwise (fun u v => cmp u v ≤ 0) (sortCmp cmp l) :=
  pairwise_sortGo cmp P hsym htrans l [] hl (by simp) (by simp)

theorem mem_sortCmp (cmp : α → α → Int) (l : List α) (x : α) :
    x ∈ sortCmp cmp l ↔ x ∈ l :=
  (perm_sortCmp cmp l).mem_iff

/- ===================================================================
   XML escaping lemmas (claim C6).
   =================================================================== -/

theorem xmlPass_cons (c0 : Char) (rep : String) (c : Char) (cs : List Char) :
    xmlPass c0 rep (c :: cs) = (if c = c0 then rep.data else [c]) ++ xmlPass c0 rep cs := by
  simp [xmlPass]

theorem xmlPass_append (c0 : Char) (rep : String) (l1 l2 : List Char) :
    xmlPass c0 rep (l1 ++ l2) = xmlPass c0 rep l1 ++ xmlPass c0 rep l2 := by
  simp [xmlPass]

theorem xmlPass_single_ne (c0 : Char) (rep : String) (c : Char) (h : c ≠ c0) :
    xmlPass c0 rep [c] = [c] := by
  simp [xmlPass, h]

/- The five sequential replace passes of _EscapeXmlValue coincide with the
   character-wise escaping: the entity strings introduced by an earlier
   pass contain none of the characters replaced by a later pass. -/
theorem escape_chain (l : List Char) :
    xmlPass aposC "&apos;"
      (xmlPass '"' "&quot;"
        (xmlPass '>' "&gt;"
          (xmlPass '<' "&lt;"
            (xmlPass '&' "&amp;" l)))) =
    l.flatMap (fun ch => (specEscapeChar ch).data) := by
  induction l with
  | nil => rfl
  | cons c cs ih =>
    rw [xmlPass_cons, xmlPass_append, xmlPass_append, xmlPass_append, xmlPass_append,
      List.flatMap_cons, ih]
    congr 1
    by_cases h1 : c = '&'
    · subst h1; decide
    · by_cases h2 : c = '<'
      · subst h2; decide
      · by_cases h3 : c = '>'
        · subst h3; decide
        · by_cases h4 : c = '"'
          · subst h4; decide
          · by_cases h5 : c = aposC
            · subst h5; decide
            · rw [if_neg h1, xmlPass_single_ne _ _ _ h2, xmlPass_single_ne _ _ _ h3,
                xmlPass_single_ne _ _ _ h4, xmlPass_single_ne _ _ _ h5]
              simp [specEscapeChar, h1, h2, h3, h4, h5, String.singleton]

/- _EscapeXmlValue agrees with the character-wise specification escape on
   non-nullish values (and is the empty string on nullish ones). -/
theorem escapeXml_eq_spec (v : Value) :
    Table.EscapeXmlValue v = if v.isNullish then "" else specEscape (jsToString v) := by
  cases v <;> simp [Table.EscapeXmlValue, Value.isNullish, specEscape, escape_chain]

theorem foldl_append_skip (P : Nat → Bool) (f : Nat → String) :
    ∀ (l : List Nat) (s0 : String),
      l.foldl (fun s i => if P i then s else s ++ f i) s0 =
        s0 ++ strConcat (l.filterMap (fun i => if P i then none else some (f i))) := by
  intro l
  induction l with
  | nil => intro s0; simp [strConcat, String.append_empty]
  | cons x xs ih =>
    intro s0
    by_cases h : P x = true
    · simp only [List.foldl_cons, if_pos h, List.filterMap_cons, h]
      exact ih s0
    · have h' : P x = false := by simpa using h
      simp only [List.foldl_cons, List.filterMap_cons, h', Bool.false_eq_true, if_false]
      rw [ih (s0 ++ f x)]
      simp [strConcat, String.append_assoc]

/- ===================================================================
   Additional list access lemmas.
   =================================================================== -/

theorem getD_append_lt {α : Type} (l l' : List α) (n : Nat) (d : α) (h : n < l.length) :
    (l ++ l').getD n d = l.getD n d := by
  simp [List.getD, List.getElem?_append_left h]

theorem getD_set_ne {α : Type} (l : List α) (i j : Nat) (a d : α) (h : i ≠ j) :
    (l.set i a).getD j d = l.getD j d := by
  simp [List.getD, List.getElem?_set_ne h]

theorem getD_set_self {α : Type} (l : List α) (i : Nat) (a d : α) (h : i < l.length) :
    (l.set i a).getD i d = a := by
  simp [List.getD, List.getElem?_set_eq_of_lt a h]

theorem jsGetAt_getRowRaw (t : Table) (r c : Nat) (hc : c < t.GetColumnCount) :
    jsGetAt (t.GetRowRaw r) c = t.GetCellRaw r c := by
  simp [Table.GetRowRaw, jsGetAt, List.getD, List.getElem?_map, List.getElem?_range hc]

/- ===================================================================
   Claim C3.
   =================================================================== -/

/-- C3: GetCellValue returns null whenever the row index or the resolved
column index is outside the table's row/column range, SetCellValue in that
case returns false and leaves the table (hence every cell) unchanged, and
for an in-range position SetCellValue returns true. -/
theorem c3_cell_bounds (t : Table) (iRow : Int) (col : Table.ColumnRef) (v : Value) :
    ((iRow < 0 ∨ iRow ≥ (t.Size : Int) ∨ t.resolveColumn col < 0 ∨
        t.resolveColumn col ≥ (t.GetColumnCount : Int)) →
      t.GetCellValue iRow col = .vnull ∧ t.SetCellValue iRow col v = (false, t))
  ∧ ((0 ≤ iRow ∧ iRow < (t.Size : Int) ∧ 0 ≤ t.resolveColumn col ∧
        t.resolveColumn col < (t.GetColumnCount : Int)) →
      (t.SetCellValue iRow col v).1 = true) := by
  constructor
  · intro h
    constructor
    · simp only [Table.GetCellValue]
      rw [if_pos h]
    · simp only [Table.SetCellValue]
      rw [if_pos h]
  · rintro ⟨h1, h2, h3, h4⟩
    have hn : ¬ (iRow < 0 ∨ iRow ≥ (t.Size : Int) ∨ t.resolveColumn col < 0 ∨
        t.resolveColumn col ≥ (t.GetColumnCount : Int)) := by
      push_neg
      exact ⟨h1, h2, h3, h4⟩
    simp only [Table.SetCellValue]
    rw [if_neg hn]

/-- C3 witness: on the concrete table T3, row index 5 is out of range, so
GetCellValue yields null and SetCellValue (false, unchanged); cell (0,0) is
in range, so SetCellValue returns true. -/
theorem c3_witness :
    (T3.GetCellValue 5 (.idx 0) = .vnull ∧
     T3.SetCellValue 5 (.idx 0) (.vnum 9) = (false, T3)) ∧
    (T3.SetCellValue 0 (.idx 1) (.vnum 9)).1 = true := by
  constructor
  · exact (c3_cell_bounds T3 5 (.idx 0) (.vnum 9)).1 (by decide)
  · exact (c3_cell_bounds T3 0 (.idx 1) (.vnum 9)).2 (by decide)

/- ===================================================================
   Claim C2.
   =================================================================== -/

/-- C2 counterexample: storing an array value succeeds, but GetCellValue
returns the array's first element rather than the stored value, because
_GetCellValue unwraps array cells. -/
theorem c2_counterexample :
    (T2.SetCellValue 0 (.idx 0) (.varr [.pnum 1, .pnum 2])).1 = true
  ∧ (T2.SetCellValue 0 (.idx 0) (.varr [.pnum 1, .pnum 2])).2.GetCellValue 0 (.idx 0) = .vnum 1
  ∧ Value.vnum 1 ≠ Value.varr [.pnum 1, .pnum 2] := by
  refine ⟨by decide, by decide, by decide⟩

/-- C2 (amended): for in-range r and c, SetCellValue(r, c, v) returns true
and a subsequent GetCellValue(r, c) returns the one-level unwrap of v,
which is v itself whenever v is not an array (for an array it is the
array's first element). -/
theorem c2_set_get (t : Table) (r c : Nat) (v : Value)
    (hr : r < t.Size) (hc : c < t.GetColumnCount) :
    (t.SetCellValue (r : Int) (.idx (c : Int)) v).1 = true
  ∧ (t.SetCellValue (r : Int) (.idx (c : Int)) v).2.GetCellValue (r : Int) (.idx (c : Int)) =
      v.unwrapCell
  ∧ (v.isArr = false → v.unwrapCell = v) := by
  have hcond : ¬ ((r : Int) < 0 ∨ (r : Int) ≥ (t.Size : Int) ∨
      t.resolveColumn (.idx (c : Int)) < 0 ∨
      t.resolveColumn (.idx (c : Int)) ≥ (t.GetColumnCount : Int)) := by
    push_neg
    refine ⟨Int.ofNat_nonneg r, ?_, ?_, ?_⟩
    · exact_mod_cast hr
    · exact Int.ofNat_nonneg c
    · simp only [Table.resolveColumn]
      exact_mod_cast hc
  constructor
  · simp only [Table.SetCellValue]
    rw [if_neg hcond]
  constructor
  · simp only [Table.SetCellValue]
    rw [if_neg hcond]
    have hsz : ((t.aTable.set (Int.toNat r)
        (jsSetAt (t.aTable.getD (Int.toNat r) []) (Int.toNat ((c : Int))) v)).length : Int) =
        (t.aTable.length : Int) := by
      simp
    simp only [Table.GetCellValue, Table.resolveColumn, Table.Size, Table.GetColumnCount]
    rw [if_neg (by
      push_neg
      refine ⟨Int.ofNat_nonneg r, ?_, Int.ofNat_nonneg c, ?_⟩
      · simpa using (by exact_mod_cast hr : (r : Int) < (t.aTable.length : Int))
      · exact_mod_cast hc)]
    simp only [Table.GetCellRaw, Int.toNat_ofNat]
    rw [getD_set_self _ _ _ _ (by simpa [Table.Size] using hr)]
    rw [jsGetAt_jsSetAt]
  · intro hv
    cases v <;> simp_all [Value.isArr, Value.unwrapCell]

/-- C2 witness: at the concrete table T2, setting cell (0,0) to the
non-array value 42 succeeds and reading it back yields 42. -/
theorem c2_witness :
    0 < T2.Size ∧ 0 < T2.GetColumnCount ∧
    (T2.SetCellValue 0 (.idx 0) (.vnum 42)).1 = true ∧
    (T2.SetCellValue 0 (.idx 0) (.vnum 42)).2.GetCellValue 0 (.idx 0) = Value.vnum 42 := by
  have h := c2_set_get T2 0 0 (.vnum 42) (by decide) (by decide)
  exact ⟨by decide, by decide, h.1, h.2.1⟩

/- ===================================================================
   Claim C7.
   =================================================================== -/

theorem foldl_push_rows : ∀ (rows : List (List Value)) (t0 : Table),
    rows.foldl (fun acc r => { acc with aTable := acc.aTable ++ [r] }) t0 =
      { aColumn := t0.aColumn, aTable := t0.aTable ++ rows } := by
  intro rows
  induction rows with
  | nil => intro t0; simp
  | cons x xs ih =>
    intro t0
    rw [List.foldl_cons, ih]
    simp

/-- C7: Add appends the normalised rows of its argument to the end of the
row array, increases Size by exactly the number of rows added, and leaves
the previously stored rows and the column definitions unchanged. -/
theorem c7_add (t : Table) (arg : Table.AddArg) (sep? : Option String) :
    (t.Add arg sep?).aColumn = t.aColumn
  ∧ (t.Add arg sep?).aTable = t.aTable ++ t.addRows arg sep?
  ∧ (t.Add arg sep?).Size = t.Size + (t.addRows arg sep?).length := by
  unfold Table.Add
  rw [foldl_push_rows]
  refine ⟨rfl, rfl, ?_⟩
  simp [Table.Size]

/- ===================================================================
   Claim C10.
   =================================================================== -/

/-- C10: GetValue(n) returns the column's declared default when the stored
value is null or undefined and the default is neither null nor undefined;
in every other case (stored value not nullish, default nullish, or no such
column) it returns the stored value, which is undefined when no value was
ever set. -/
theorem c10_getValue_default (r : DBRecord) (n : String) :
    (∀ c, r.findColumn n = some c → (r.storedValue n).isNullish = true →
        c.defaultV.isNullish = false → r.GetValue n = c.defaultV)
  ∧ (∀ c, r.findColumn n = some c → (r.storedValue n).isNullish = false →
        r.GetValue n = r.storedValue n)
  ∧ (∀ c, r.findColumn n = some c → c.defaultV.isNullish = true →
        r.GetValue n = r.storedValue n)
  ∧ (r.findColumn n = none → r.GetValue n = r.storedValue n)
  ∧ (mapGet r.mapValues n = none → r.storedValue n = .vundef) := by
  refine ⟨?_, ?_, ?_, ?_, ?_⟩
  · intro c hc hv hd
    simp [DBRecord.GetValue, hc, hv, hd]
  · intro c hc hv
    simp [DBRecord.GetValue, hc, hv]
  · intro c hc hd
    simp [DBRecord.GetValue, hc, hd]
  · intro hc
    simp [DBRecord.GetValue, hc]
  · intro hm
    simp [DBRecord.storedValue, hm]

/-- C10 witness: on R10, column "a" stores null and declares default 7, so
GetValue("a") is 7; column "b" has no usable default and stores 2, so
GetValue("b") is 2. -/
theorem c10_witness :
    R10.GetValue "a" = .vnum 7 ∧ R10.GetValue "b" = .vnum 2 := by
  constructor
  · exact (c10_getValue_default R10 "a").1
      (mkDBColumn { sName := "a", defaultV := .vnum 7 }) (by decide) (by decide) (by decide)
  · exact (c10_getValue_default R10 "b").2.2.1
      (mkDBColumn { sName := "b" }) (by decide) (by decide)

/- ===================================================================
   Claim C8.
   =================================================================== -/

/-- C8 counterexample: R8 is a legitimately constructed record with the
single column "a", yet AddColumn of another column named "a" raises no
error and leaves the schema with the duplicate name list ["a", "a"]; the
distinct-names invariant is not preserved by AddColumn. -/
theorem c8_counterexample :
    DBRecord.make [optsA] "" = .ok R8
  ∧ (R8.AddColumn [{ sName := "a" }]).GetColumnNames = ["a", "a"]
  ∧ ¬ (R8.AddColumn [{ sName := "a" }]).GetColumnNames.Nodup := by
  refine ⟨rfl, by decide, by decide⟩

/-- C8 (amended): the DBRecord constructor rejects its column definitions
with the duplicate-names error exactly when the definition names repeat,
while AddColumn appends the new columns without any uniqueness check. -/
theorem c8_ctor_unique :
    (∀ (cols : List DBColOpts) (sTable : String),
      DBRecord.make cols sTable = .error DBRecord.dupMsg ↔
        ¬ (cols.map (fun o => o.sName)).Nodup)
  ∧ (∀ (r : DBRecord) (cs : List DBColOpts),
      (r.AddColumn cs).GetColumnNames = r.GetColumnNames ++ cs.map (fun o => o.sName)) := by
  constructor
  · intro cols sTable
    have hnames : (cols.map mkDBColumn).map (fun c => c.sName) = cols.map (fun o => o.sName) := by
      rw [List.map_map]
      rfl
    simp only [DBRecord.make]
    rw [hnames]
    by_cases h : (cols.map (fun o => o.sName)).dedup.length = (cols.map (fun o => o.sName)).length
    · rw [if_neg (by simpa using h)]
      simp only [reduceCtorEq, false_iff, not_not]
      exact (dedup_length_iff _).mp h
    · rw [if_pos (by simpa using h)]
      simp only [true_iff]
      intro hnd
      exact h ((dedup_length_iff _).mpr hnd)
  · intro r cs
    unfold DBRecord.AddColumn DBRecord.GetColumnNames
    rw [List.map_append, List.map_map]
    rfl

/- ===================================================================
   Claim C9.
   =================================================================== -/

theorem setPairsKnown_spec (cols : List DBColumn) :
    ∀ (pairs : List (String × Value)) (r0 : DBRecord), r0.aColumn = cols →
      (r0.setPairsKnown pairs).aColumn = cols
    ∧ (r0.setPairsKnown pairs).mapValues =
        (pairs.filter (fun kv => (cols.find? (fun c => c.sName == kv.1)).isSome)).foldl
          (fun m kv => mapSet m kv.1 kv.2) r0.mapValues := by
  intro pairs
  induction pairs with
  | nil =>
    intro r0 h0
    exact ⟨h0, rfl⟩
  | cons kv rest ih =>
    intro r0 h0
    have hhas : r0.HasColumn kv.1 = (cols.find? (fun c => c.sName == kv.1)).isSome := by
      simp [DBRecord.HasColumn, DBRecord.findColumn, h0]
    by_cases h : (cols.find? (fun c => c.sName == kv.1)).isSome = true
    · have step : r0.setPairsKnown (kv :: rest) =
          (r0.setValueInternal kv.1 kv.2).setPairsKnown rest := by
        simp [DBRecord.setPairsKnown, hhas, h]
      have hcol : (r0.setValueInternal kv.1 kv.2).aColumn = cols := by
        simp [DBRecord.setValueInternal, h0]
      have hrec := ih (r0.setValueInternal kv.1 kv.2) hcol
      rw [step]
      refine ⟨hrec.1, ?_⟩
      rw [hrec.2]
      simp [List.filter_cons, h, DBRecord.setValueInternal]
    · have step : r0.setPairsKnown (kv :: rest) = r0.setPairsKnown rest := by
        simp [DBRecord.setPairsKnown, hhas, h]
      have hrec := ih r0 h0
      rw [step]
      refine ⟨hrec.1, ?_⟩
      rw [hrec.2]
      have : (cols.find? (fun c => c.sName == kv.1)).isSome = false := by
        simpa using h
      simp [List.filter_cons, this]

/-- C9: SetValue with a string column name throws exactly when the record
has no column of that name and then leaves the record unchanged, while the
plain-object, two-array and nested-array forms never throw, silently
skipping the unknown names while still setting the values of the known
columns in order. -/
theorem c9_setValue (r : DBRecord) :
    (∀ s v, ((r.SetValue (.byName s v)).1 = none ↔ r.HasColumn s = true))
  ∧ (∀ s v, r.HasColumn s = false →
      r.SetValue (.byName s v) = (some (DBRecord.errColumnNotFound s), r))
  ∧ (∀ kvs, (r.SetValue (.byObject kvs)).1 = none
          ∧ (r.SetValue (.byObject kvs)).2.mapValues = setKnownValues r kvs)
  ∧ (∀ names values, (r.SetValue (.byArrays names values)).1 = none
          ∧ (r.SetValue (.byArrays names values)).2.mapValues =
              setKnownValues r (DBRecord.pairsOf names values))
  ∧ (∀ names values, (r.SetValue (.byNested names values)).1 = none
          ∧ (r.SetValue (.byNested names values)).2.mapValues =
              setKnownValues r (DBRecord.pairsOf names values)) := by
  have hobj : ∀ pairs : List (String × Value),
      (r.setPairsKnown pairs).mapValues = setKnownValues r pairs := by
    intro pairs
    have h := (setPairsKnown_spec r.aColumn pairs r rfl).2
    rw [h]
    rfl
  refine ⟨?_, ?_, ?_, ?_, ?_⟩
  · intro s v
    by_cases h : r.HasColumn s = true
    · simp [DBRecord.SetValue, h]
    · simp [DBRecord.SetValue, h]
  · intro s v h
    simp [DBRecord.SetValue, h]
  · intro kvs
    exact ⟨rfl, hobj kvs⟩
  · intro names values
    exact ⟨rfl, hobj (DBRecord.pairsOf names values)⟩
  · intro names values
    exact ⟨rfl, hobj (DBRecord.pairsOf names values)⟩

/-- C9 witness: on R9 (columns "a" and "b"), SetValue("zz", 1) throws the
column-not-found error and returns the record unchanged, while the object
form with a known and an unknown key never throws and sets only the known
column. -/
theorem c9_witness :
    R9.SetValue (.byName "zz" (.vnum 1)) = (some (DBRecord.errColumnNotFound "zz"), R9)
  ∧ (R9.SetValue (.byObject [("a", .vnum 1), ("zz", .vnum 5)])).1 = none
  ∧ (R9.SetValue (.byObject [("a", .vnum 1), ("zz", .vnum 5)])).2.mapValues =
      setKnownValues R9 [("a", .vnum 1), ("zz", .vnum 5)]
  ∧ setKnownValues R9 [("a", .vnum 1), ("zz", .vnum 5)] = [("a", .vnum 1)] := by
  refine ⟨(c9_setValue R9).2.1 "zz" (.vnum 1) (by decide),
    ((c9_setValue R9).2.2.1 [("a", .vnum 1), ("zz", .vnum 5)]).1,
    ((c9_setValue R9).2.2.1 [("a", .vnum 1), ("zz", .vnum 5)]).2,
    by decide⟩

/- ===================================================================
   Claim C4.
   =================================================================== -/

theorem jsGetAtInt_ofNat (l : List Value) (c : Nat) :
    jsGetAtInt l (Int.ofNat c) = jsGetAt l c := by
  simp only [jsGetAtInt, Int.ofNat_eq_natCast, Int.toNat_natCast]
  rw [if_neg (by simp)]

theorem any_map_fn {α β : Type} (l : List α) (f : α → β) (p : β → Bool) :
    (l.map f).any p = l.any (fun x => p (f x)) := by
  induction l with
  | nil => rfl
  | cons x xs ih => simp [ih]

theorem any_congr_fn {α : Type} (l : List α) (p q : α → Bool) (h : ∀ x ∈ l, p x = q x) :
    l.any p = l.any q := by
  induction l with
  | nil => rfl
  | cons x xs ih =>
    simp only [List.any_cons]
    rw [h x (by simp), ih (fun y hy => h y (by simp [hy]))]

theorem findAll_eq_filter (t : Table) (v : Value) (cols? : Option (List Int)) :
    t.FindAll v cols? = (List.range t.Size).filter (fun iRow =>
      (match cols? with
       | some l => l
       | none => (List.range t.GetColumnCount).map Int.ofNat).any
        (fun c => (match v with
           | .varr l => l.map Prim.toValue
           | w => [w]).any (fun w => jsEq (jsGetAtInt (t.GetRowRaw iRow) c) w))) := by
  simp only [Table.FindAll]
  rw [foldl_push_filter _ (fun x => x)]
  simp

theorem findAll_some_eq (t : Table) (v : Value) (cols : List Int) :
    t.FindAll v (some cols) = (List.range t.Size).filter (fun iRow =>
      cols.any (fun c =>
        (match v with
         | .varr l => l.map Prim.toValue
         | w => [w]).any (fun w => jsEq (jsGetAtInt (t.GetRowRaw iRow) c) w))) := by
  rw [findAll_eq_filter]

theorem findAll_none_eq (t : Table) (v : Value) :
    t.FindAll v none = (List.range t.Size).filter (fun iRow =>
      (List.range t.GetColumnCount).any (fun c =>
        (match v with
         | .varr l => l.map Prim.toValue
         | w => [w]).any (fun w => jsEq (jsGetAt (t.GetRowRaw iRow) c) w))) := by
  rw [findAll_eq_filter]
  apply List.filter_congr
  intro r _
  rw [any_map_fn]
  apply any_congr_fn
  intro c _
  rw [jsGetAtInt_ofNat]

theorem looseMatch_any (cell v : Value) :
    ((match v with
      | .varr l => l.map Prim.toValue
      | w => [w]).any (fun w => jsEq cell w) = true) ↔ LooseMatch cell v := by
  cases v <;> simp [LooseMatch, List.any_eq_true]

/-- C4: FindAll with a value condition returns exactly the indices, in
increasing order, of the rows having a loosely matching cell in some
column covered by the column definitions; a given iColumn restricts the
search to the listed columns, and an array value matches through any of
its elements (LooseMatch). -/
theorem c4_findAll (t : Table) (v : Value) :
    (∀ r, r ∈ t.FindAll v none ↔
        r < t.Size ∧ ∃ c, c < t.GetColumnCount ∧ LooseMatch (t.GetCellRaw r c) v)
  ∧ (t.FindAll v none).Pairwise (· < ·)
  ∧ (∀ cols r, r ∈ t.FindAll v (some cols) ↔
        r < t.Size ∧ ∃ c ∈ cols, LooseMatch (jsGetAtInt (t.GetRowRaw r) c) v)
  ∧ (∀ cols, (t.FindAll v (some cols)).Pairwise (· < ·)) := by
  refine ⟨?_, ?_, ?_, ?_⟩
  · intro r
    rw [findAll_none_eq, List.mem_filter, List.mem_range]
    constructor
    · rintro ⟨hr, hp⟩
      rw [List.any_eq_true] at hp
      rcases hp with ⟨c, hc, hinner⟩
      rw [List.mem_range] at hc
      refine ⟨hr, c, hc, ?_⟩
      rw [← looseMatch_any]
      rw [jsGetAt_getRowRaw t r c hc] at hinner
      exact hinner
    · rintro ⟨hr, c, hc, hmatch⟩
      refine ⟨hr, ?_⟩
      rw [List.any_eq_true]
      refine ⟨c, List.mem_range.mpr hc, ?_⟩
      rw [jsGetAt_getRowRaw t r c hc]
      rw [← looseMatch_any] at hmatch
      exact hmatch
  · rw [findAll_none_eq]
    exact (List.pairwise_lt_range t.Size).filter _
  · intro cols r
    rw [findAll_some_eq, List.mem_filter, List.mem_range]
    constructor
    · rintro ⟨hr, hp⟩
      rw [List.any_eq_true] at hp
      rcases hp with ⟨c, hc, hinner⟩
      exact ⟨hr, c, hc, (looseMatch_any _ _).mp hinner⟩
    · rintro ⟨hr, c, hc, hmatch⟩
      refine ⟨hr, ?_⟩
      rw [List.any_eq_true]
      exact ⟨c, hc, (looseMatch_any _ _).mpr hmatch⟩
  · intro cols
    rw [findAll_some_eq]
    exact (List.pairwise_lt_range t.Size).filter _

/- ===================================================================
   Claim C6.
   =================================================================== -/

theorem empty_append_str (s : String) : "" ++ s = s := rfl

theorem xmlElemPiece_eq_spec (t : Table) (iRow : Nat) (sColumn : String) (i : Nat)
    (h : (t.GetCellRaw iRow i).isNullish = false) :
    t.xmlElemPiece iRow sColumn i = specXmlElemPiece t iRow sColumn i := by
  unfold Table.xmlElemPiece specXmlElemPiece
  rw [escapeXml_eq_spec (t.GetCellRaw iRow i), h]
  rw [escapeXml_eq_spec (.vstr (t.colNameAt i))]
  rfl

theorem xmlAttrPiece_eq_spec (t : Table) (iRow : Nat) (i : Nat)
    (h : (t.GetCellRaw iRow i).isNullish = false) :
    t.xmlAttrPiece iRow i = specXmlAttrPiece t iRow i := by
  unfold Table.xmlAttrPiece specXmlAttrPiece
  rw [escapeXml_eq_spec (t.GetCellRaw iRow i), h]
  rw [escapeXml_eq_spec (.vstr (t.colNameAt i))]
  rfl

/-- C6: for an in-range row, AsXml emits one element (or one attribute when
bAttribute) per column, skipping columns whose cell value is null or
undefined, with every cell value and column name escaped character-wise
(the five XML special characters replaced by their entity references), as
described by specAsXml. -/
theorem c6_asXml (t : Table) (iRow : Nat) (hr : iRow < t.Size) (o : XmlOpts) :
    t.AsXml iRow o = specAsXml t iRow o := by
  cases hb : o.bAttribute
  · simp only [Table.AsXml, specAsXml, hb, Bool.false_eq_true, if_false, if_pos rfl]
    rw [foldl_append_skip (fun i => (t.GetCellRaw iRow i).isNullish)
      (fun i => t.xmlElemPiece iRow (if o.sColumn = "" then "column" else o.sColumn) i)]
    rw [empty_append_str]
    have hpieces :
        (fun i => if (t.GetCellRaw iRow i).isNullish then none
          else some (t.xmlElemPiece iRow (if o.sColumn = "" then "column" else o.sColumn) i)) =
        (fun i => if (t.GetCellRaw iRow i).isNullish then none
          else some (specXmlElemPiece t iRow (if o.sColumn = "" then "column" else o.sColumn) i)) := by
      funext i
      by_cases h : (t.GetCellRaw iRow i).isNullish = true
      · rw [if_pos h, if_pos h]
      · have h' : (t.GetCellRaw iRow i).isNullish = false := by simpa using h
        rw [if_neg h, if_neg h, xmlElemPiece_eq_spec t iRow _ i h']
    rw [hpieces]
    simp
  · simp only [Table.AsXml, specAsXml, hb, Bool.true_eq_false, if_false, if_pos
      rfl]
    rw [foldl_append_skip (fun i => (t.GetCellRaw iRow i).isNullish)
      (fun i => t.xmlAttrPiece iRow i)]
    rw [empty_append_str]
    have hpieces :
        (fun i => if (t.GetCellRaw iRow i).isNullish then none
          else some (t.xmlAttrPiece iRow i)) =
        (fun i => if (t.GetCellRaw iRow i).isNullish then none
          else some (specXmlAttrPiece t iRow i)) := by
      funext i
      by_cases h : (t.GetCellRaw iRow i).isNullish = true
      · rw [if_pos h, if_pos h]
      · have h' : (t.GetCellRaw iRow i).isNullish = false := by simpa using h
        rw [if_neg h, if_neg h, xmlAttrPiece_eq_spec t iRow i h']
    rw [hpieces]
    simp

/-- C6 witness: on T6 (columns "a&b" and "c", row ["x<y", null]) the
element-mode rendering matches the specification rendering and is the
concrete escaped string with the null column skipped. -/
theorem c6_witness :
    0 < T6.Size ∧
    T6.AsXml 0 { sRow := "", sColumn := "", bAttribute := false } =
      specAsXml T6 0 { sRow := "", sColumn := "", bAttribute := false } ∧
    T6.AsXml 0 { sRow := "", sColumn := "", bAttribute := false } =
      "<row><column name=\"a&amp;b\">x&lt;y</column></row>" :=
  ⟨by decide, c6_asXml T6 0 (by decide) _, by decide⟩

/- ===================================================================
   Claim C5.
   =================================================================== -/

theorem foldl_skip_filter_prop {α β : Type} (P : α → Prop) [DecidablePred P] (f : α → β) :
    ∀ (l : List α) (acc : List β),
      l.foldl (fun acc x => if P x then acc else acc ++ [f x]) acc =
        acc ++ (l.filter (fun x => decide (¬ P x))).map f := by
  intro l
  induction l with
  | nil => intro acc; simp
  | cons x xs ih =>
    intro acc
    by_cases h : P x
    · rw [List.foldl_cons, if_pos h, ih acc]
      congr 1
      simp [List.filter_cons, h]
    · rw [List.foldl_cons, if_neg h, ih (acc ++ [f x])]
      simp [List.filter_cons, h, List.append_assoc]

theorem intRange_zero (n : Nat) :
    Table.intRange 0 (n : Int) = (List.range n).map Int.ofNat := by
  unfold Table.intRange
  simp [Int.ofNat_eq_natCast]

theorem getD_map_range {α : Type} (f : Nat → α) (n i : Nat) (d : α) (h : i < n) :
    ((List.range n).map f).getD i d = f i := by
  simp [List.getD, List.getElem?_map, List.getElem?_range h]

/-- C5: Clone with no argument yields a table with equal (constructor
normal) column definitions and equal rows; Clone with aRows yields, in
list order, exactly the rows at the in-range listed indices, skipping the
out-of-range ones; and in the heap view of the rows, writing a cell of the
clone never changes any cell read through the original table, because the
spread copy allocates fresh row arrays. -/
theorem c5_clone (t : Table) (hnorm : ∀ c ∈ t.aColumn, colNormal c) :
    (t.Clone none).aColumn = t.aColumn
  ∧ (t.Clone none).aTable = t.aTable
  ∧ (∀ idxs : List Int,
      (t.Clone (some { iBegin := none, iCount := none, aRows := some idxs })).aColumn = t.aColumn
    ∧ (t.Clone (some { iBegin := none, iCount := none, aRows := some idxs })).aTable =
        (idxs.filter (fun i => decide (0 ≤ i ∧ i < (t.Size : Int)))).map
          (fun i => t.aTable.getD i.toNat []))
  ∧ (∀ (h : List (List Value)) (ht : HTable),
      (∀ ref ∈ ht.refs, ref < h.length) →
      ∀ (r c : Int) (v : Value) (rq cq : Int),
        hGetCellValue (hSetCellValue (hClone h ht).1 (hClone h ht).2 r c v).1 ht rq cq =
          hGetCellValue h ht rq cq) := by
  have hcols : t.aColumn.map
      (fun c => mkColumn c.sName c.sAlias c.sType c.iState c.iSpecificType) = t.aColumn := by
    have : ∀ c ∈ t.aColumn,
        mkColumn c.sName c.sAlias c.sType c.iState c.iSpecificType = id c := hnorm
    rw [List.map_congr_left this, List.map_id]
  have hfilter_eq : ∀ idxs : List Int,
      idxs.filter (fun i => decide (¬ (i < 0 ∨ i ≥ (t.Size : Int)))) =
      idxs.filter (fun i => decide (0 ≤ i ∧ i < (t.Size : Int))) := by
    intro idxs
    apply List.filter_congr
    intro i _
    apply decide_eq_decide.mpr
    constructor
    · intro hni
      push_neg at hni
      exact hni
    · intro hi
      push_neg
      exact hi
  refine ⟨?_, ?_, ?_, ?_⟩
  · simp only [Table.Clone]
    simpa using hcols
  · simp only [Table.Clone, Option.getD_none]
    rw [foldl_skip_filter_prop (fun i => i < 0 ∨ i ≥ (t.Size : Int))
      (fun i : Int => t.aTable.getD i.toNat [])]
    simp only [List.nil_append]
    rw [hfilter_eq]
    have hmin : min ((0 : Int) + (t.Size : Int)) (t.Size : Int) = (t.Size : Int) := by
      simp
    rw [hmin, intRange_zero]
    have hall : ((List.range t.Size).map Int.ofNat).filter
        (fun i => decide (0 ≤ i ∧ i < (t.Size : Int))) =
        (List.range t.Size).map Int.ofNat := by
      apply List.filter_eq_self.mpr
      intro x hx
      rcases List.mem_map.mp hx with ⟨j, hj, rfl⟩
      rw [List.mem_range] at hj
      simp only [decide_eq_true_eq, Int.ofNat_eq_natCast]
      constructor
      · exact Int.natCast_nonneg j
      · exact_mod_cast hj
    rw [hall, List.map_map]
    have hcomp : ((fun i : Int => t.aTable.getD i.toNat []) ∘ Int.ofNat) =
        (fun i : Nat => t.aTable.getD i []) := by
      funext i
      simp [Function.comp, Int.ofNat_eq_natCast, Int.toNat_natCast]
    rw [hcomp]
    exact map_getD_range [] t.aTable
  · intro idxs
    constructor
    · simp only [Table.Clone]
      simpa using hcols
    · simp only [Table.Clone, Option.getD_some]
      rw [foldl_skip_filter_prop (fun i => i < 0 ∨ i ≥ (t.Size : Int))
        (fun i : Int => t.aTable.getD i.toNat [])]
      simp only [List.nil_append]
      rw [hfilter_eq]
  · intro h ht hwf r c v rq cq
    by_cases hq : rq < 0 ∨ rq ≥ ((ht.refs.length : Nat) : Int) ∨ cq < 0 ∨ cq ≥ ((ht.cols.length : Nat) : Int)
    · simp only [hGetCellValue]
      rw [if_pos hq, if_pos hq]
    · push_neg at hq
      rcases hq with ⟨hq1, hq2, hq3, hq4⟩
      have hqlt : rq.toNat < ht.refs.length := by omega
      have href : ht.refs.getD rq.toNat 0 ∈ ht.refs := by
        rw [List.getD_eq_getElem ht.refs 0 hqlt]
        exact List.getElem_mem hqlt
      have hreflt : ht.refs.getD rq.toNat 0 < h.length := hwf _ href
      have harena : ∀ (h' : List (List Value)),
          (∀ ref, ref < h.length → h'.getD ref [] = h.getD ref []) →
          hGetCellValue h' ht rq cq = hGetCellValue h ht rq cq := by
        intro h' hpres
        simp only [hGetCellValue]
        rw [if_neg (by push_neg; exact ⟨hq1, hq2, hq3, hq4⟩),
            if_neg (by push_neg; exact ⟨hq1, hq2, hq3, hq4⟩)]
        simp only [hRow]
        rw [hpres _ hreflt]
      apply harena
      intro ref hrefh
      simp only [hClone, hSetCellValue]
      by_cases hs : r < 0 ∨ r ≥ ((((List.range ht.refs.length).map (fun i => h.length + i)).length : Nat) : Int) ∨
          c < 0 ∨ c ≥ (((ht.cols.map (fun c => mkColumn c.sName c.sAlias c.sType c.iState c.iSpecificType)).length : Nat) : Int)
      · rw [if_pos hs]
        exact getD_append_lt h _ ref [] hrefh
      · rw [if_neg hs]
        push_neg at hs
        rcases hs with ⟨hs1, hs2, hs3, hs4⟩
        have hrlen : r.toNat < ht.refs.length := by
          rw [List.length_map, List.length_range] at hs2
          omega
        have hrefset : ((List.range ht.refs.length).map (fun i => h.length + i)).getD r.toNat 0 =
            h.length + r.toNat := getD_map_range _ _ _ _ hrlen
        rw [hrefset]
        have hne : h.length + r.toNat ≠ ref := by omega
        rw [getD_set_ne _ _ _ _ _ hne]
        exact getD_append_lt h _ ref [] hrefh

/-- C5 witness: the concrete table T5 has constructor-normal columns, its
no-argument clone reproduces its rows, and in the concrete heap view
(arena H5arena, table H5) overwriting cell (0,0) of the clone leaves the
original's cell (0,0) reading unchanged. -/
theorem c5_witness :
    (∀ c ∈ T5.aColumn, colNormal c)
  ∧ (T5.Clone none).aTable = T5.aTable
  ∧ hGetCellValue (hSetCellValue (hClone H5arena H5).1 (hClone H5arena H5).2 0 0 (.vnum 99)).1
      H5 0 0 = hGetCellValue H5arena H5 0 0 := by
  have hn : ∀ c ∈ T5.aColumn, colNormal c := by decide
  exact ⟨hn, (c5_clone T5 hn).2.1,
    (c5_clone T5 hn).2.2.2 H5arena H5 (by decide) 0 0 (.vnum 99) 0 0⟩

/- ===================================================================
   Claim C1.
   =================================================================== -/

theorem isNum_exists (v : Value) (h : v.isNum = true) : ∃ n, v = .vnum n := by
  cases v <;> simp_all [Value.isNum]

theorem ascCmp_num (p : Nat) (r1 r2 : List Value) (m n : Int)
    (h1 : jsGetAt r1 p = .vnum m) (h2 : jsGetAt r2 p = .vnum n) :
    Table.ascCmp false p r1 r2 = m - n := by
  simp [Table.ascCmp, h1, h2, toNumber]

theorem descCmp_num (p : Nat) (r1 r2 : List Value) (m n : Int)
    (h1 : jsGetAt r1 p = .vnum m) (h2 : jsGetAt r2 p = .vnum n) :
    Table.descCmp false p r1 r2 = n - m := by
  simp [Table.descCmp, h1, h2, toNumber]

/-- C1 counterexample: on the table T1cex (first column typed "number",
second column holding the non-numeric strings "b" and "a"),
GetData({bHeader: false, iSort: 1}) returns the rows unreordered, because
the comparator kind is chosen from the type of the first column rather
than the sorted column and JavaScript subtraction of the strings yields
NaN, treated as 0; the result is ascending neither in column 1 nor in
column 0, refuting the claim under either column numbering. -/
theorem c1_counterexample :
    T1cex.GetData { bHeader := false, iSort := 1, bIndex := false } =
      [[.vnum 5, .vstr "b"], [.vnum 3, .vstr "a"]]
  ∧ ¬ (T1cex.GetData { bHeader := false, iSort := 1, bIndex := false }).Pairwise
      (fun r1 r2 => specLeB (jsGetAt r1 1) (jsGetAt r2 1) = true)
  ∧ ¬ (T1cex.GetData { bHeader := false, iSort := 1, bIndex := false }).Pairwise
      (fun r1 r2 => specLeB (jsGetAt r1 0) (jsGetAt r2 0) = true) := by
  have hout : T1cex.GetData { bHeader := false, iSort := 1, bIndex := false } =
      [[.vnum 5, .vstr "b"], [.vnum 3, .vstr "a"]] := by decide
  refine ⟨hout, ?_, ?_⟩
  · rw [hout]
    intro h
    have hle := (List.pairwise_cons.mp h).1 [.vnum 3, .vstr "a"] (by simp)
    exact absurd hle (by decide)
  · rw [hout]
    intro h
    have hle := (List.pairwise_cons.mp h).1 [.vnum 3, .vstr "a"] (by simp)
    exact absurd hle (by decide)

/-- C1 (amended): when the column at index (1 if bIndex else 0) is not
typed "string" (so GetData picks the numeric comparator) and every built
row holds a number at sort position |k| minus that offset, then
GetData({bHeader: false, iSort: k, bIndex}) is a permutation of the built
rows that is numerically ascending at that position for k positive and
descending for k negative; and with bHeader the header row is prepended
after sorting, so it stays first.  (As stated, with the comparison kind
taken from the sort column itself, the claim fails: see the
counterexample.) -/
theorem c1_getData_sort (t : Table) (k : Int) (b : Bool)
    (hk : k ≠ 0)
    (hstr : t.GetColumnType (if b then 1 else 0) ≠ some "string")
    (hnum : ∀ row ∈ t.buildRows b,
      (jsGetAt row (k.natAbs - (if b then 1 else 0))).isNum = true) :
    List.Perm (t.GetData { bHeader := false, iSort := k, bIndex := b }) (t.buildRows b)
  ∧ (0 < k → (t.GetData { bHeader := false, iSort := k, bIndex := b }).Pairwise
      (fun r1 r2 => numLeAt (k.natAbs - (if b then 1 else 0)) r1 r2 = true))
  ∧ (k < 0 → (t.GetData { bHeader := false, iSort := k, bIndex := b }).Pairwise
      (fun r1 r2 => numGeAt (k.natAbs - (if b then 1 else 0)) r1 r2 = true))
  ∧ (t.GetData { bHeader := true, iSort := k, bIndex := b } =
      (if b then .vstr "#" :: t.GetHeaderRow else t.GetHeaderRow) ::
        t.GetData { bHeader := false, iSort := k, bIndex := b }) := by
  have hbis : (t.GetColumnType (if b then 1 else 0) == some "string") = false := by
    simpa using hstr
  have hheader : t.GetData { bHeader := true, iSort := k, bIndex := b } =
      (if b then .vstr "#" :: t.GetHeaderRow else t.GetHeaderRow) ::
        t.GetData { bHeader := false, iSort := k, bIndex := b } := by
    simp [Table.GetData]
  set p := k.natAbs - (if b then 1 else 0) with hpdef
  have hP : ∀ row ∈ t.buildRows b, (jsGetAt row p).isNum = true := hnum
  rcases lt_or_gt_of_ne hk with hneg | hpos
  · -- descending case
    have hdata : t.GetData { bHeader := false, iSort := k, bIndex := b } =
        sortCmp (Table.descCmp false p) (t.buildRows b) := by
      simp only [Table.GetData, hbis]
      rw [if_neg (show ¬ (0 < k) from by omega), if_pos hneg]
      simp
    refine ⟨?_, ?_, ?_, hheader⟩
    · rw [hdata]
      exact perm_sortCmp _ _
    · intro hcontra
      exact absurd hcontra (by omega)
    · intro _
      rw [hdata]
      have hsorted := pairwise_sortCmp (Table.descCmp false p)
          (fun row => (jsGetAt row p).isNum = true)
          (by
            intro x y hx hy hxy
            rcases isNum_exists _ hx with ⟨m, hm⟩
            rcases isNum_exists _ hy with ⟨n, hn⟩
            rw [descCmp_num p x y m n hm hn] at hxy
            rw [descCmp_num p y x n m hn hm]
            omega)
          (by
            intro x y z hx hy hz hxy hyz
            rcases isNum_exists _ hx with ⟨m, hm⟩
            rcases isNum_exists _ hy with ⟨n, hn⟩
            rcases isNum_exists _ hz with ⟨q, hq⟩
            rw [descCmp_num p x y m n hm hn] at hxy
            rw [descCmp_num p y z n q hn hq] at hyz
            rw [descCmp_num p x z m q hm hq]
            omega)
          (t.buildRows b) hP
      refine hsorted.imp_of_mem ?_
      intro r1 r2 h1 h2 hle
      have hm1 := hP r1 ((mem_sortCmp _ _ r1).mp h1)
      have hm2 := hP r2 ((mem_sortCmp _ _ r2).mp h2)
      rcases isNum_exists _ hm1 with ⟨m, hm⟩
      rcases isNum_exists _ hm2 with ⟨n, hn⟩
      rw [descCmp_num p r1 r2 m n hm hn] at hle
      simp [numGeAt, hm, hn]
      omega
  · -- ascending case
    have hdata : t.GetData { bHeader := false, iSort := k, bIndex := b } =
        sortCmp (Table.ascCmp false p) (t.buildRows b) := by
      simp only [Table.GetData, hbis]
      rw [if_pos hpos]
      simp
    refine ⟨?_, ?_, ?_, hheader⟩
    · rw [hdata]
      exact perm_sortCmp _ _
    · intro _
      rw [hdata]
      have hsorted := pairwise_sortCmp (Table.ascCmp false p)
          (fun row => (jsGetAt row p).isNum = true)
          (by
            intro x y hx hy hxy
            rcases isNum_exists _ hx with ⟨m, hm⟩
            rcases isNum_exists _ hy with ⟨n, hn⟩
            rw [ascCmp_num p x y m n hm hn] at hxy
            rw [ascCmp_num p y x n m hn hm]
            omega)
          (by
            intro x y z hx hy hz hxy hyz
            rcases isNum_exists _ hx with ⟨m, hm⟩
            rcases isNum_exists _ hy with ⟨n, hn⟩
            rcases isNum_exists _ hz with ⟨q, hq⟩
            rw [ascCmp_num p x y m n hm hn] at hxy
            rw [ascCmp_num p y z n q hn hq] at hyz
            rw [ascCmp_num p x z m q hm hq]
            omega)
          (t.buildRows b) hP
      refine hsorted.imp_of_mem ?_
      intro r1 r2 h1 h2 hle
      have hm1 := hP r1 ((mem_sortCmp _ _ r1).mp h1)
      have hm2 := hP r2 ((mem_sortCmp _ _ r2).mp h2)
      rcases isNum_exists _ hm1 with ⟨m, hm⟩
      rcases isNum_exists _ hm2 with ⟨n, hn⟩
      rw [ascCmp_num p r1 r2 m n hm hn] at hle
      simp [numLeAt, hm, hn]
      omega
    · intro hcontra
      exact absurd hcontra (by omega)

/-- C1 witness: on the numeric table T1w, GetData({bHeader: false,
iSort: 1}) returns a permutation of the rows that is numerically ascending
at position 1, and the header variant prepends the header row. -/
theorem c1_witness :
    List.Perm (T1w.GetData { bHeader := false, iSort := 1, bIndex := false }) (T1w.buildRows false)
  ∧ (T1w.GetData { bHeader := false, iSort := 1, bIndex := false }).Pairwise
      (fun r1 r2 => numLeAt 1 r1 r2 = true)
  ∧ T1w.GetData { bHeader := true, iSort := 1, bIndex := false } =
      T1w.GetHeaderRow :: T1w.GetData { bHeader := false, iSort := 1, bIndex := false } := by
  have h := c1_getData_sort T1w 1 false (by decide) (by decide) (by decide)
  exact ⟨h.1, h.2.1 (by decide), h.2.2.2⟩

/-- C4 witness: on the concrete table T3, the row set found for value 3 is
characterised by the membership equivalence of c4_findAll and evaluates to
exactly the one matching row index. -/
theorem c4_witness :
    (1 ∈ T3.FindAll (.vnum 3) none ↔
      1 < T3.Size ∧ ∃ c, c < T3.GetColumnCount ∧ LooseMatch (T3.GetCellRaw 1 c) (.vnum 3))
  ∧ T3.FindAll (.vnum 3) none = [1] :=
  ⟨(c4_findAll T3 (.vnum 3)).1 1, by decide⟩
